import Mathlib

/-!
# The chat hub of `main.go`

A shallow embedding of the WebSocket chat server: the hub loop `ChatRoom.run`
(register / unregister / broadcast), the per-connection adapter
`handleWebSocket`, and the goroutine `Client.readMessages`.

Go channels are modelled by their run-time state (capacity, buffer, a parked
receiver, the closed flag); the two run-time panics the hub can raise
("send on closed channel", "close of closed channel") are the values of `Fault`.
-/

namespace Websocket

/-- Payload of a message, the Go type `[]byte`: one natural number per byte. -/
abbrev Msg := List Nat

/-- Identity of a `*Client`: clients are compared by pointer. -/
abbrev ClientId := Nat

/-- Run-time panics of the channel operations used by the hub. -/
inductive Fault
  | sendOnClosed
  | closeOfClosed
  deriving DecidableEq, Repr

/-- State of one `chan []byte`.
* `cap`: the capacity given to `make`;
* `buf`: buffered values, oldest first;
* `recvWaiting`: the receiver (the goroutine `writeMessages`, the only
  receiver of a `send` channel) is parked in a receive;
* `delivered`: the values the receiver has taken so far, oldest first;
* `closed`: `close` has been called. -/
structure Chan where
  cap : Nat
  buf : List Msg
  recvWaiting : Bool
  delivered : List Msg
  closed : Bool
  deriving DecidableEq, Repr

/-- The channel built by `make(chan []byte, n)`: empty, open, nobody parked. -/
def makeChan (n : Nat) : Chan :=
  { cap := n, buf := [], recvWaiting := false, delivered := [], closed := false }

namespace Chan

/-- Non-blocking send, the `case client.send <- message:` of a `select` that
has a `default`. A closed channel panics; a parked receiver is handed the value
directly; otherwise the value is buffered when there is room; otherwise the
send does not proceed (`none`) and the `default` branch is taken. -/
def trySend (ch : Chan) (m : Msg) : Except Fault (Option Chan) :=
  if ch.closed then .error .sendOnClosed
  else if ch.recvWaiting then
    .ok (some { ch with recvWaiting := false, delivered := ch.delivered ++ [m] })
  else if ch.buf.length < ch.cap then
    .ok (some { ch with buf := ch.buf ++ [m] })
  else .ok none

/-- The builtin `close(ch)`: closing a closed channel panics; otherwise the
channel is marked closed and a parked receiver is released. -/
def close (ch : Chan) : Except Fault Chan :=
  if ch.closed then .error .closeOfClosed
  else .ok { ch with closed := true, recvWaiting := false }

/-- One receive by the writer goroutine (`for message := range c.send`): it
takes the oldest buffered value; on an empty closed channel the loop ends and
nothing changes; on an empty open channel the receiver parks. -/
def recv (ch : Chan) : Chan :=
  match ch.buf with
  | m :: rest => { ch with buf := rest, delivered := ch.delivered ++ [m] }
  | [] => if ch.closed then ch else { ch with recvWaiting := true }

/-- A non-blocking send can proceed: a receiver is parked or the buffer has room. -/
def ready (ch : Chan) : Bool :=
  ch.recvWaiting || decide (ch.buf.length < ch.cap)

/-- The channel after a send that proceeded. -/
def put (ch : Chan) (m : Msg) : Chan :=
  if ch.recvWaiting then
    { ch with recvWaiting := false, delivered := ch.delivered ++ [m] }
  else { ch with buf := ch.buf ++ [m] }

/-- The channel after a successful `close`. -/
def shut (ch : Chan) : Chan :=
  { ch with closed := true, recvWaiting := false }

/-- The channel of a client after a broadcast pass has visited it. -/
def afterBroadcast (ch : Chan) (m : Msg) : Chan :=
  if ch.ready then ch.put m else ch.shut

/-- Every value accepted by the channel so far, oldest first. -/
def sent (ch : Chan) : List Msg :=
  ch.delivered ++ ch.buf

end Chan

/-- The hub state. `clients` holds the keys of `map[*Client]bool` (every stored
value is `true`), in the order in which a `range` visits them; `send` gives, for
each `*Client`, the state of the channel in its `send` field (a field that is set
when the client is built and never reassigned). -/
structure ChatRoom where
  clients : List ClientId
  send : ClientId → Chan

/-- The hub built by `newChatRoom`: an empty `clients` map. The argument is the
state of the channels of the clients that exist or will be built. -/
def newChatRoom (send : ClientId → Chan) : ChatRoom :=
  { clients := [], send := send }

/-- What the hub loop can receive: a value on `register`, on `unregister` or
on `broadcast`. -/
inductive Event
  | register (client : ClientId)
  | unregister (client : ClientId)
  | broadcast (message : Msg)
  deriving DecidableEq, Repr

namespace ChatRoom

/-- The assignment `c.clients[client] = true`: a key already present stays once. -/
def insertClient (s : ChatRoom) (client : ClientId) : ChatRoom :=
  { s with clients := if client ∈ s.clients then s.clients else s.clients ++ [client] }

/-- The builtin `delete(c.clients, client)`: no effect when the key is absent. -/
def deleteClient (s : ChatRoom) (client : ClientId) : ChatRoom :=
  { s with clients := s.clients.filter (fun d => d ≠ client) }

/-- Replace the state of the `send` channel of one client. -/
def setSend (s : ChatRoom) (client : ClientId) (ch : Chan) : ChatRoom :=
  { s with send := Function.update s.send client ch }

/-- Body of the `range` loop of the broadcast case, for one client:
`select { case client.send <- message: default: close(client.send); delete(c.clients, client) }`. -/
def broadcastOne (message : Msg) (s : ChatRoom) (client : ClientId) : Except Fault ChatRoom :=
  match (s.send client).trySend message with
  | .error f => .error f
  | .ok (some ch) => .ok (s.setSend client ch)
  | .ok none =>
    match (s.send client).close with
    | .error f => .error f
    | .ok ch => .ok ((s.setSend client ch).deleteClient client)

/-- The loop `for client := range c.clients`, over the keys still to visit. The
only key deleted during the loop is the one being visited, so the keys visited
are those present when the loop starts. -/
def rangeClients (message : Msg) : List ClientId → ChatRoom → Except Fault ChatRoom
  | [], s => .ok s
  | client :: rest, s =>
    match broadcastOne message s client with
    | .error f => .error f
    | .ok s1 => rangeClients message rest s1

/-- One iteration of the `for { select { ... } }` of `ChatRoom.run`, for the
event received. A panic ends the program, so no state is returned. The
`fmt.Println` calls write to standard output only and are left out. -/
def step (s : ChatRoom) : Event → Except Fault ChatRoom
  | .register client => .ok (s.insertClient client)
  | .unregister client =>
    match ((s.deleteClient client).send client).close with
    | .error f => .error f
    | .ok ch => .ok ((s.deleteClient client).setSend client ch)
  | .broadcast message => rangeClients message s.clients s

/-- The hub loop `ChatRoom.run` on the events it receives, in arrival order. -/
def run : ChatRoom → List Event → Except Fault ChatRoom
  | s, [] => .ok s
  | s, e :: es =>
    match step s e with
    | .error f => .error f
    | .ok s1 => run s1 es

/-- One receive on the `send` channel of a client by its `writeMessages` goroutine. -/
def writerRecv (s : ChatRoom) (client : ClientId) : ChatRoom :=
  s.setSend client (s.send client).recv

/-- Keys of a Go map are unique. -/
def KeysUnique (s : ChatRoom) : Prop :=
  s.clients.Nodup

/-- Every client in the `clients` map has an open `send` channel. -/
def MembersOpen (s : ChatRoom) : Prop :=
  ∀ c ∈ s.clients, (s.send c).closed = false

instance (s : ChatRoom) : Decidable (KeysUnique s) :=
  inferInstanceAs (Decidable s.clients.Nodup)

instance (s : ChatRoom) : Decidable (MembersOpen s) :=
  inferInstanceAs (Decidable (∀ c ∈ s.clients, (s.send c).closed = false))

end ChatRoom

/-- Either a hub event or one receive by the writer goroutine of a client. -/
inductive Action
  | hub (e : Event)
  | recv (client : ClientId)
  deriving DecidableEq, Repr

namespace ChatRoom

/-- One action on the hub state: a hub event is handled by `step`; a receive
by a writer goroutine never faults. -/
def act (s : ChatRoom) : Action → Except Fault ChatRoom
  | .hub e => step s e
  | .recv client => .ok (s.writerRecv client)

/-- A sequence of actions, in order; the first panic ends the program. -/
def exec : ChatRoom → List Action → Except Fault ChatRoom
  | s, [] => .ok s
  | s, a :: as =>
    match act s a with
    | .error f => .error f
    | .ok s1 => exec s1 as

/-- The registration discipline of `handleWebSocket` along a trace: every
`register` is of a client that was not registered earlier in the trace (`regs`
lists those that were) and whose `send` channel is open at that moment, as the
channel just built by `make` is. -/
def disciplined : List ClientId → ChatRoom → List Action → Bool
  | _, _, [] => true
  | regs, s, .hub (.register client) :: as =>
    !(decide (client ∈ regs)) && !(s.send client).closed &&
      disciplined (client :: regs) (s.insertClient client) as
  | regs, s, a :: as =>
    match act s a with
    | .ok s1 => disciplined regs s1 as
    | .error _ => true

end ChatRoom

/-- The message broadcast by an action, if it is a broadcast. -/
def Action.message : Action → Option Msg
  | .hub (.broadcast m) => some m
  | _ => none

/-- An action that leaves client `c` alone: a broadcast, or a receive by the
writer of another client. -/
def Action.quietFor (c : ClientId) : Action → Bool
  | .hub (.broadcast _) => true
  | .recv d => decide (d ≠ c)
  | _ => false

/-! ## The connection adapter -/

/-- The constant `websocket.TextMessage`. -/
def TextMessage : Int := 1

/-- The constant `websocket.BinaryMessage`. -/
def BinaryMessage : Int := 2

/-- What one call of `conn.ReadMessage()` returns: `(messageType, p, err)`,
with `err` recording `err != nil`. -/
structure ReadResult where
  messageType : Int
  p : Msg
  err : Bool
  deriving DecidableEq, Repr

/-- The visible effects of the adapter code, in program order. -/
inductive Effect
  | hubSend (e : Event)
  | connWrite (client : ClientId) (messageType : Int) (p : Msg)
  | connClose (client : ClientId)
  | goReadMessages (client : ClientId)
  | goWriteMessages (client : ClientId)
  | logUpgradeError
  deriving DecidableEq, Repr

/-- The hub events among a list of effects, in order. -/
def hubEvents : List Effect → List Event
  | [] => []
  | .hubSend e :: rest => e :: hubEvents rest
  | _ :: rest => hubEvents rest

/-- The `for` loop of `Client.readMessages` on the results of its successive
`ReadMessage` calls: an error breaks; otherwise the message is written back to
the connection of the same client with `c.conn.WriteMessage`. A call after the
last listed result fails, the connection having ended. -/
def readMessagesLoop (client : ClientId) : List ReadResult → List Effect
  | [] => []
  | r :: rest =>
    if r.err then []
    else .connWrite client TextMessage r.p :: readMessagesLoop client rest

/-- The goroutine `Client.readMessages`: the loop, then the deferred `c.conn.Close()`. -/
def readMessages (client : ClientId) (reads : List ReadResult) : List Effect :=
  readMessagesLoop client reads ++ [.connClose client]

/-- The `for` loop of `handleWebSocket` on the results of its successive
`ReadMessage` calls: `err != nil || messageType != websocket.TextMessage` breaks;
otherwise `chatRoom.broadcast <- p`. A call after the last listed result fails,
the connection having ended. -/
def handleWebSocketLoop : List ReadResult → List Effect
  | [] => []
  | r :: rest =>
    if r.err || r.messageType != TextMessage then []
    else .hubSend (.broadcast r.p) :: handleWebSocketLoop rest

/-- The function `handleWebSocket`. `upgradeErr` records that `upgrader.Upgrade`
failed; `client` is the identity of the `Client` built after the upgrade, whose
`send` field is `make(chan []byte)`. The deferred `chatRoom.unregister <- client`
runs when the loop has ended. -/
def handleWebSocket (upgradeErr : Bool) (client : ClientId) (reads : List ReadResult) :
    List Effect :=
  if upgradeErr then [.logUpgradeError]
  else
    [.hubSend (.register client), .goReadMessages client, .goWriteMessages client]
      ++ handleWebSocketLoop reads ++ [.hubSend (.unregister client)]

/-- The `send` channel built by `handleWebSocket`: `make(chan []byte)`, unbuffered. -/
def handleWebSocketSend : Chan :=
  makeChan 0

/-- A read result that is a successfully read text frame. -/
def ReadResult.isText (r : ReadResult) : Bool :=
  !r.err && r.messageType == TextMessage

/-- Whether client `c` has been joined and not left afterwards along a sequence
of hub events; the Boolean argument says whether it is a member at the start. -/
def joinedNotLeft (c : ClientId) : Bool → List Event → Bool
  | b, [] => b
  | b, .register d :: es => joinedNotLeft c (b || decide (d = c)) es
  | b, .unregister d :: es => joinedNotLeft c (b && !decide (d = c)) es
  | b, .broadcast _ :: es => joinedNotLeft c b es

/-- The event is a join or a leave, not a broadcast. -/
def Event.isJoinOrLeave : Event → Bool
  | .broadcast _ => false
  | _ => true

/-- The event is a leave. -/
def Event.isLeave : Event → Bool
  | .unregister _ => true
  | _ => false

/-- The clients left along a sequence of hub events, in order, one entry per leave. -/
def leaves : List Event → List ClientId
  | [] => []
  | .unregister c :: es => c :: leaves es
  | _ :: es => leaves es

/-- A sequence of joins and leaves with a second join of client 1 and a leave
of client 3, which never joined. -/
def joinLeaveTrace : List Event :=
  [.register 1, .register 2, .register 1, .unregister 3, .unregister 1]

/-- The messages broadcast along a trace, in order. -/
def broadcastMsgs (as : List Action) : List Msg :=
  as.filterMap Action.message

/-- The channel `make(chan []byte, q)` of a member that never receives, after the
messages `ms` have been broadcast: the first `q` are buffered, and the channel
is closed once one more has arrived. -/
def Chan.stalled (q : Nat) (ms : List Msg) : Chan :=
  { cap := q, buf := ms.take q, recvWaiting := false, delivered := [],
    closed := decide (q < ms.length) }

/-- The relation between a run in which client `c` joined with an empty channel
of capacity `q` and never receives (`s1`) and the same run without `c` (`s0`),
after the messages `ms` have been broadcast. -/
structure ChatRoom.Sim (c : ClientId) (q : Nat) (ms : List Msg) (s1 s0 : ChatRoom) : Prop where
  clients_eq : s0.clients = s1.clients.filter (fun d => d ≠ c)
  send_eq : ∀ d, d ≠ c → s1.send d = s0.send d
  keys1 : s1.KeysUnique
  open1 : s1.MembersOpen
  keys0 : s0.KeysUnique
  open0 : s0.MembersOpen
  member : c ∈ s1.clients ↔ ms.length ≤ q
  chan : s1.send c = Chan.stalled q ms

/-! ## Concrete states used to instantiate the theorems -/

/-- A hub with two members: client 1 has a channel of capacity one that is
empty, client 2 has an unbuffered channel and no receiver is parked on it. -/
def sampleRoom : ChatRoom :=
  { clients := [1, 2], send := fun c => if c = 1 then makeChan 1 else makeChan 0 }

/-- A hub whose only member is client 1, with the channel it has in `sampleRoom`. -/
def soloRoom : ChatRoom :=
  { clients := [1], send := fun c => if c = 1 then makeChan 1 else makeChan 0 }

/-- A hub whose only member is client 2; client 1, not yet a member, has an
empty channel of capacity one. -/
def stallRoom : ChatRoom :=
  { clients := [2], send := fun c => if c = 1 then makeChan 1 else makeChan 0 }

/-- Two broadcasts in succession, with a receive by the writer of client 2 in between. -/
def stallTrace : List Action :=
  [.hub (.broadcast [104]), .recv 2, .hub (.broadcast [105])]

/-- Channels as `handleWebSocket` builds them: every client has `make(chan []byte)`. -/
def freshSend : ClientId → Chan :=
  fun _ => handleWebSocketSend

/-- A trace of three connections: clients 1 and 2 join and their writers park,
client 3 joins, a message is broadcast, client 2 leaves. -/
def sampleTrace : List Action :=
  [.hub (.register 1), .recv 1, .hub (.register 2), .recv 2, .hub (.register 3),
    .hub (.broadcast [104]), .hub (.unregister 2)]

/-- The hub state at the end of `sampleTrace`, started from the empty hub. -/
def sampleTraceEnd : ChatRoom :=
  match (newChatRoom freshSend).exec sampleTrace with
  | .ok s => s
  | .error _ => newChatRoom freshSend

/-! ## Channel lemmas -/

theorem Chan.trySend_open (ch : Chan) (m : Msg) (h : ch.closed = false) :
    ch.trySend m = .ok (if ch.ready then some (ch.put m) else none) := by
  unfold Chan.trySend Chan.ready Chan.put
  rw [h]
  by_cases hr : ch.recvWaiting = true
  · simp [hr]
  · by_cases hl : ch.buf.length < ch.cap
    · simp [hr, hl]
    · simp [hr, hl]

theorem Chan.close_open (ch : Chan) (h : ch.closed = false) :
    ch.close = .ok ch.shut := by
  unfold Chan.close Chan.shut
  simp [h]

theorem Chan.close_closed (ch : Chan) (h : ch.closed = true) :
    ch.close = .error .closeOfClosed := by
  unfold Chan.close
  simp [h]

namespace ChatRoom

theorem broadcastOne_open (m : Msg) (s : ChatRoom) (c : ClientId)
    (h : (s.send c).closed = false) :
    broadcastOne m s c = .ok
      { clients := if (s.send c).ready then s.clients else s.clients.filter (fun d => d ≠ c),
        send := Function.update s.send c ((s.send c).afterBroadcast m) } := by
  unfold broadcastOne
  rw [Chan.trySend_open _ _ h]
  by_cases hr : (s.send c).ready = true
  · simp [hr, setSend, Chan.afterBroadcast]
  · simp only [hr, Bool.false_eq_true, if_false]
    rw [Chan.close_open _ h]
    simp [setSend, deleteClient, Chan.afterBroadcast, hr]

theorem rangeClients_spec (m : Msg) :
    ∀ (l : List ClientId) (s : ChatRoom), l.Nodup →
      (∀ c ∈ l, (s.send c).closed = false) →
      ∃ s1, rangeClients m l s = .ok s1 ∧
        (∀ c, s1.send c = if c ∈ l then (s.send c).afterBroadcast m else s.send c) ∧
        s1.clients = s.clients.filter (fun c => !(decide (c ∈ l) && !(s.send c).ready)) := by
  intro l
  induction l with
  | nil =>
    intro s _ _
    exact ⟨s, rfl, by simp, by simp⟩
  | cons c cs ih =>
    intro s hnd hopen
    have hc : c ∉ cs := (List.nodup_cons.mp hnd).1
    have hcs : cs.Nodup := (List.nodup_cons.mp hnd).2
    have h1 := broadcastOne_open m s c (hopen c (List.mem_cons_self _ _))
    have hstep : ∀ d, d ≠ c →
        Function.update s.send c ((s.send c).afterBroadcast m) d = s.send d :=
      fun d hdc => Function.update_noteq hdc _ _
    obtain ⟨s1, hrun, hsend, hcl⟩ := ih
      { clients := if (s.send c).ready then s.clients else s.clients.filter (fun d => d ≠ c),
        send := Function.update s.send c ((s.send c).afterBroadcast m) } hcs (by
      intro d hd
      have hdc : d ≠ c := fun e => hc (e ▸ hd)
      show (Function.update s.send c ((s.send c).afterBroadcast m) d).closed = false
      rw [hstep d hdc]
      exact hopen d (List.mem_cons_of_mem _ hd))
    refine ⟨s1, ?_, ?_, ?_⟩
    · simp only [rangeClients, h1]
      exact hrun
    · intro d
      rw [hsend d]
      by_cases hdc : d = c
      · subst hdc
        simp [hc]
      · show (if d ∈ cs then
            (Function.update s.send c ((s.send c).afterBroadcast m) d).afterBroadcast m
          else Function.update s.send c ((s.send c).afterBroadcast m) d) = _
        rw [hstep d hdc]
        simp [hdc]
    · rw [hcl]
      show List.filter (fun d => !(decide (d ∈ cs) &&
          !(Function.update s.send c ((s.send c).afterBroadcast m) d).ready))
        (if (s.send c).ready then s.clients else s.clients.filter (fun d => d ≠ c)) = _
      by_cases hr : (s.send c).ready = true
      · simp only [hr, if_true]
        apply List.filter_congr
        intro d _
        by_cases hdc : d = c
        · subst hdc
          simp [hc, hr]
        · rw [hstep d hdc]
          simp [hdc]
      · simp only [hr, Bool.false_eq_true, if_false, List.filter_filter]
        apply List.filter_congr
        intro d _
        by_cases hdc : d = c
        · subst hdc
          simp [hc, hr]
        · rw [hstep d hdc]
          simp [hdc]

theorem broadcast_spec (m : Msg) (s : ChatRoom) (hk : KeysUnique s) (ho : MembersOpen s) :
    ∃ s1, step s (.broadcast m) = .ok s1 ∧
      (∀ c, s1.send c = if c ∈ s.clients then (s.send c).afterBroadcast m else s.send c) ∧
      s1.clients = s.clients.filter (fun c => (s.send c).ready) := by
  obtain ⟨s1, hrun, hsend, hcl⟩ := rangeClients_spec m s.clients s hk ho
  refine ⟨s1, hrun, hsend, ?_⟩
  rw [hcl]
  apply List.filter_congr
  intro d hd
  simp [hd]

end ChatRoom

theorem Chan.afterBroadcast_ready (ch : Chan) (m : Msg) (h : ch.ready = true) :
    ch.afterBroadcast m = ch.put m := by
  simp [Chan.afterBroadcast, h]

theorem Chan.afterBroadcast_full (ch : Chan) (m : Msg) (h : ch.ready = false) :
    ch.afterBroadcast m = ch.shut := by
  simp [Chan.afterBroadcast, h]

theorem Chan.recv_closed (ch : Chan) : ch.recv.closed = ch.closed := by
  unfold Chan.recv
  split
  · rfl
  · split <;> simp_all

theorem Chan.put_closed (ch : Chan) (m : Msg) : (ch.put m).closed = ch.closed := by
  unfold Chan.put
  split <;> rfl

theorem Chan.mem_sent_put (ch : Chan) (m : Msg) : m ∈ (ch.put m).sent := by
  unfold Chan.put Chan.sent
  split <;> simp

theorem Chan.trySend_ready (ch : Chan) (m : Msg) (h : ch.closed = false)
    (hr : ch.ready = true) : ch.trySend m = .ok (some (ch.put m)) := by
  rw [Chan.trySend_open ch m h]
  simp [hr]

theorem Chan.trySend_full (ch : Chan) (m : Msg) (h : ch.closed = false)
    (hr : ch.ready = false) : ch.trySend m = .ok none := by
  rw [Chan.trySend_open ch m h]
  simp [hr]

/-! ## The claims about one broadcast -/

/-- C1: after the hub handles one broadcast of `m`, every client that was in the
`clients` map when the broadcast started (the sender is not known to the hub, so
it is treated like any other member) is in exactly one of two situations: the
send of `m` on its channel proceeded and it is still a member, or it has been
removed from the map and its channel is closed. The hub state is any state in
which the keys of the map are unique and the members have open channels. -/
theorem broadcast_delivers_or_evicts (s : ChatRoom) (m : Msg)
    (hk : s.KeysUnique) (ho : s.MembersOpen) :
    ∃ s1, s.step (.broadcast m) = .ok s1 ∧
      ∀ c ∈ s.clients,
        (((s.send c).trySend m = .ok (some (s1.send c)) ∧ m ∈ (s1.send c).sent ∧
              c ∈ s1.clients) ∨
          (c ∉ s1.clients ∧ (s1.send c).closed = true ∧
              (s1.send c).sent = (s.send c).sent)) ∧
        ¬ (((s.send c).trySend m = .ok (some (s1.send c)) ∧ c ∈ s1.clients) ∧
          (c ∉ s1.clients ∧ (s1.send c).closed = true)) := by
  obtain ⟨s1, hrun, hsend, hcl⟩ := ChatRoom.broadcast_spec m s hk ho
  refine ⟨s1, hrun, ?_⟩
  intro c hc
  have hopen := ho c hc
  have hs : s1.send c = (s.send c).afterBroadcast m := by
    rw [hsend c]
    simp [hc]
  refine ⟨?_, fun h => h.2.1 h.1.2⟩
  by_cases hr : (s.send c).ready = true
  · left
    rw [hs, Chan.afterBroadcast_ready _ _ hr]
    refine ⟨Chan.trySend_ready _ _ hopen hr, Chan.mem_sent_put _ _, ?_⟩
    rw [hcl]
    exact List.mem_filter.mpr ⟨hc, hr⟩
  · right
    have hr2 : (s.send c).ready = false := by simpa using hr
    rw [hs, Chan.afterBroadcast_full _ _ hr2]
    refine ⟨?_, rfl, rfl⟩
    rw [hcl]
    intro hmem
    exact hr (List.mem_filter.mp hmem).2

/-- Witness of C1: client 1 has room for one message, client 2 has an unbuffered
channel with no receiver parked. -/
theorem broadcast_delivers_or_evicts_witness :
    sampleRoom.KeysUnique ∧ sampleRoom.MembersOpen ∧
    ∃ s1, sampleRoom.step (.broadcast [104, 105]) = .ok s1 ∧
      ∀ c ∈ sampleRoom.clients,
        (((sampleRoom.send c).trySend [104, 105] = .ok (some (s1.send c)) ∧
              [104, 105] ∈ (s1.send c).sent ∧ c ∈ s1.clients) ∨
          (c ∉ s1.clients ∧ (s1.send c).closed = true ∧
              (s1.send c).sent = (sampleRoom.send c).sent)) ∧
        ¬ (((sampleRoom.send c).trySend [104, 105] = .ok (some (s1.send c)) ∧
              c ∈ s1.clients) ∧
          (c ∉ s1.clients ∧ (s1.send c).closed = true)) :=
  ⟨by decide, by decide, broadcast_delivers_or_evicts _ _ (by decide) (by decide)⟩

/-- C5: handling a broadcast of `m` always completes (the pass is a total
function of the state: no step of it waits), and a member `c` whose own channel
can accept a message receives `m` and remains a member. The outcome for `c` is
the same in any other hub state `t` in which `c` is a member with the same
channel, whatever the other members of `t` are and however many of them are
evicted. -/
theorem broadcast_ready_member_unaffected (s t : ChatRoom) (m : Msg) (c : ClientId)
    (hks : s.KeysUnique) (hos : s.MembersOpen) (hkt : t.KeysUnique) (hot : t.MembersOpen)
    (hcs : c ∈ s.clients) (hct : c ∈ t.clients) (hsame : t.send c = s.send c)
    (hr : (s.send c).ready = true) :
    ∃ s1 t1, s.step (.broadcast m) = .ok s1 ∧ t.step (.broadcast m) = .ok t1 ∧
      (s.send c).trySend m = .ok (some (s1.send c)) ∧ m ∈ (s1.send c).sent ∧
      (s1.send c).closed = false ∧ c ∈ s1.clients ∧
      t1.send c = s1.send c ∧ c ∈ t1.clients := by
  obtain ⟨s1, hrun, hsend, hcl⟩ := ChatRoom.broadcast_spec m s hks hos
  obtain ⟨t1, hrunt, hsendt, hclt⟩ := ChatRoom.broadcast_spec m t hkt hot
  have hs : s1.send c = (s.send c).put m := by
    rw [hsend c, if_pos hcs, Chan.afterBroadcast_ready _ _ hr]
  have ht : t1.send c = (s.send c).put m := by
    rw [hsendt c, if_pos hct, hsame, Chan.afterBroadcast_ready _ _ hr]
  refine ⟨s1, t1, hrun, hrunt, ?_, ?_, ?_, ?_, ?_, ?_⟩
  · rw [hs]
    exact Chan.trySend_ready _ _ (hos c hcs) hr
  · rw [hs]
    exact Chan.mem_sent_put _ _
  · rw [hs, Chan.put_closed]
    exact hos c hcs
  · rw [hcl]
    exact List.mem_filter.mpr ⟨hcs, hr⟩
  · rw [hs, ht]
  · rw [hclt]
    exact List.mem_filter.mpr ⟨hct, by rw [hsame]; exact hr⟩

/-- Witness of C5: client 1 of `sampleRoom`, next to a member that is evicted,
compared with `soloRoom` where it is alone. -/
theorem broadcast_ready_member_unaffected_witness :
    sampleRoom.KeysUnique ∧ sampleRoom.MembersOpen ∧ (sampleRoom.send 2).ready = false ∧
    ∃ s1 t1, sampleRoom.step (.broadcast [104]) = .ok s1 ∧
      soloRoom.step (.broadcast [104]) = .ok t1 ∧
      (sampleRoom.send 1).trySend [104] = .ok (some (s1.send 1)) ∧ [104] ∈ (s1.send 1).sent ∧
      (s1.send 1).closed = false ∧ 1 ∈ s1.clients ∧
      t1.send 1 = s1.send 1 ∧ 1 ∈ t1.clients :=
  ⟨by decide, by decide, by decide,
    broadcast_ready_member_unaffected sampleRoom soloRoom [104] 1
      (by decide) (by decide) (by decide) (by decide) (by decide) (by decide)
      (by decide) (by decide)⟩

/-- C7: a broadcast of `m` leaves the channel of every client that is not a
member at that moment unchanged and adds no client to the `clients` map. In
particular, from the empty hub, after `a` joins, `b` joins and `a` leaves, a
broadcast visits `b` only: the channel of `a` is as the leave left it, without
`m`, and every channel other than that of `b` is untouched by the broadcast. -/
theorem broadcast_frame (s : ChatRoom) (m : Msg) (hk : s.KeysUnique) (ho : s.MembersOpen)
    (send : ClientId → Chan) (a b : ClientId) (hab : a ≠ b)
    (ha : (send a).closed = false) (hb : (send b).closed = false) :
    (∃ s1, s.step (.broadcast m) = .ok s1 ∧
      (∀ c, c ∉ s.clients → s1.send c = s.send c) ∧
      (∀ c, c ∈ s1.clients → c ∈ s.clients)) ∧
    (∃ s3 s4, (newChatRoom send).run [.register a, .register b, .unregister a] = .ok s3 ∧
      (newChatRoom send).run
        [.register a, .register b, .unregister a, .broadcast m] = .ok s4 ∧
      s3.clients = [b] ∧
      (∀ c, c ≠ b → s4.send c = s3.send c) ∧
      s4.send a = (send a).shut ∧
      s4.send b = (send b).afterBroadcast m ∧
      (∀ c, c ∈ s4.clients → c = b)) := by
  constructor
  · obtain ⟨s1, hrun, hsend, hcl⟩ := ChatRoom.broadcast_spec m s hk ho
    refine ⟨s1, hrun, ?_, ?_⟩
    · intro c hc
      rw [hsend c, if_neg hc]
    · intro c hc
      rw [hcl] at hc
      exact (List.mem_filter.mp hc).1
  · have hba : b ≠ a := fun e => hab e.symm
    let s3 : ChatRoom := { clients := [b], send := Function.update send a (send a).shut }
    have h3 : (newChatRoom send).run [.register a, .register b, .unregister a] = .ok s3 := by
      simp [ChatRoom.run, ChatRoom.step, newChatRoom, ChatRoom.insertClient,
        ChatRoom.deleteClient, ChatRoom.setSend, Chan.close_open _ ha, hab, hba, s3]
    have hk3 : s3.KeysUnique := by simp [ChatRoom.KeysUnique, s3]
    have ho3 : s3.MembersOpen := by
      intro c hc
      have hcb : c = b := by simpa [s3] using hc
      subst hcb
      show (Function.update send a (send a).shut c).closed = false
      rw [Function.update_noteq hba]
      exact hb
    obtain ⟨s4, hrun, hsend, hcl⟩ := ChatRoom.broadcast_spec m s3 hk3 ho3
    have h4 : (newChatRoom send).run
        [.register a, .register b, .unregister a, .broadcast m] = .ok s4 := by
      have : (newChatRoom send).run
          [.register a, .register b, .unregister a, .broadcast m]
          = s3.step (.broadcast m) := by
        simp [ChatRoom.run, ChatRoom.step, newChatRoom, ChatRoom.insertClient,
          ChatRoom.deleteClient, ChatRoom.setSend, Chan.close_open _ ha, hab, hba, s3]
        split <;> simp_all
      rw [this, hrun]
    refine ⟨s3, s4, h3, h4, rfl, ?_, ?_, ?_, ?_⟩
    · intro c hc
      rw [hsend c]
      simp [s3, hc]
    · rw [hsend a]
      simp [s3, hab]
    · rw [hsend b]
      simp [s3, Function.update_noteq hba]
    · intro c hc
      rw [hcl] at hc
      simpa [s3] using (List.mem_filter.mp hc).1

/-- Witness of C7: `sampleRoom`, and clients 1 and 2 with channels as
`handleWebSocket` builds them. -/
theorem broadcast_frame_witness :
    sampleRoom.KeysUnique ∧ sampleRoom.MembersOpen ∧
    (∃ s1, sampleRoom.step (.broadcast [104]) = .ok s1 ∧
      (∀ c, c ∉ sampleRoom.clients → s1.send c = sampleRoom.send c) ∧
      (∀ c, c ∈ s1.clients → c ∈ sampleRoom.clients)) ∧
    (∃ s3 s4, (newChatRoom freshSend).run [.register 1, .register 2, .unregister 1] = .ok s3 ∧
      (newChatRoom freshSend).run
        [.register 1, .register 2, .unregister 1, .broadcast [104]] = .ok s4 ∧
      s3.clients = [2] ∧
      (∀ c, c ≠ 2 → s4.send c = s3.send c) ∧
      s4.send 1 = (freshSend 1).shut ∧
      s4.send 2 = (freshSend 2).afterBroadcast [104] ∧
      (∀ c, c ∈ s4.clients → c = 2)) :=
  ⟨by decide, by decide,
    broadcast_frame sampleRoom [104] (by decide) (by decide) freshSend 1 2
      (by decide) (by decide) (by decide)⟩

/-! ## The connection adapter -/

theorem hubEvents_append (xs ys : List Effect) :
    hubEvents (xs ++ ys) = hubEvents xs ++ hubEvents ys := by
  induction xs with
  | nil => rfl
  | cons x xs ih =>
    cases x <;> simp [hubEvents, ih]

theorem hubEvents_handleWebSocketLoop (reads : List ReadResult) :
    hubEvents (handleWebSocketLoop reads) =
      (reads.takeWhile ReadResult.isText).map (fun r => Event.broadcast r.p) := by
  induction reads with
  | nil => rfl
  | cons r rest ih =>
    unfold handleWebSocketLoop
    by_cases h : (r.err || r.messageType != TextMessage) = true
    · have h2 : r.isText = false := by
        unfold ReadResult.isText
        cases hr : r.err <;> simp_all
      simp [h, h2, List.takeWhile, hubEvents]
    · have h2 : r.isText = true := by
        unfold ReadResult.isText
        cases hr : r.err <;> simp_all
      simp [h, h2, List.takeWhile, hubEvents, ih]

theorem hubEvents_readMessagesLoop (client : ClientId) (reads : List ReadResult) :
    hubEvents (readMessagesLoop client reads) = [] := by
  induction reads with
  | nil => rfl
  | cons r rest ih =>
    unfold readMessagesLoop
    split
    · rfl
    · simpa [hubEvents] using ih

/-- C9: after a successful upgrade, for every finite sequence of read results
delivered to the loop of `handleWebSocket`, the events sent to the hub are
exactly: one register of the new client, then one broadcast carrying the
unmodified payload for each frame of the longest leading run of successfully
read text frames, in order, then exactly one unregister of that client. The
first read error or non-text frame ends the loop. -/
theorem handleWebSocket_hub_events (client : ClientId) (reads : List ReadResult) :
    hubEvents (handleWebSocket false client reads) =
      [Event.register client]
        ++ (reads.takeWhile ReadResult.isText).map (fun r => Event.broadcast r.p)
        ++ [Event.unregister client] := by
  unfold handleWebSocket
  simp [hubEvents_append, hubEvents, hubEvents_handleWebSocketLoop]

/-- C8: `Client.readMessages` sends nothing to the hub, whatever it reads: each
message read successfully is written back to the connection it came from. For one
text frame read, the effects are one `WriteMessage` on the own connection and
the deferred `Close`. -/
theorem readMessages_echoes_only (client : ClientId) (reads : List ReadResult) :
    hubEvents (readMessages client reads) = [] ∧
    readMessages 1 [{ messageType := TextMessage, p := [104, 105], err := false }] =
      [.connWrite 1 TextMessage [104, 105], .connClose 1] := by
  constructor
  · unfold readMessages
    rw [hubEvents_append, hubEvents_readMessagesLoop]
    rfl
  · decide

/-! ## The invariant of the hub -/

namespace ChatRoom

/-- The invariant (unique keys, open member channels) is kept by a register of
a client whose channel is open. -/
theorem inv_insertClient (s : ChatRoom) (c : ClientId) (hk : s.KeysUnique)
    (ho : s.MembersOpen) (hc : (s.send c).closed = false) :
    (s.insertClient c).KeysUnique ∧ (s.insertClient c).MembersOpen := by
  unfold insertClient KeysUnique MembersOpen
  by_cases hm : c ∈ s.clients
  · simp only [hm, if_true]
    exact ⟨hk, ho⟩
  · simp only [hm, if_false]
    constructor
    · exact List.Nodup.append hk (List.nodup_singleton c) (by simpa using hm)
    · intro d hd
      rcases List.mem_append.mp hd with h | h
      · exact ho d h
      · have : d = c := by simpa using h
        rw [this]
        exact hc

theorem inv_unregister (s s1 : ChatRoom) (c : ClientId) (hk : s.KeysUnique)
    (ho : s.MembersOpen) (h : s.step (.unregister c) = .ok s1) :
    s1.KeysUnique ∧ s1.MembersOpen := by
  unfold step at h
  cases hcl : ((s.deleteClient c).send c).close with
  | error f => simp [hcl] at h
  | ok ch =>
    simp only [hcl, Except.ok.injEq] at h
    subst h
    constructor
    · exact List.Nodup.filter _ hk
    · intro d hd
      have hd2 : d ∈ s.clients.filter (fun d => d ≠ c) := hd
      have hdc : d ≠ c := by simpa using (List.mem_filter.mp hd2).2
      show (Function.update s.send c ch d).closed = false
      rw [Function.update_noteq hdc]
      exact ho d (List.mem_filter.mp hd2).1

theorem inv_broadcast (s s1 : ChatRoom) (m : Msg) (hk : s.KeysUnique)
    (ho : s.MembersOpen) (h : s.step (.broadcast m) = .ok s1) :
    s1.KeysUnique ∧ s1.MembersOpen := by
  obtain ⟨s2, hrun, hsend, hcl⟩ := broadcast_spec m s hk ho
  rw [hrun] at h
  simp only [Except.ok.injEq] at h
  subst h
  constructor
  · unfold KeysUnique
    rw [hcl]
    exact List.Nodup.filter _ hk
  · intro d hd
    rw [hcl] at hd
    have hmem := (List.mem_filter.mp hd).1
    have hr := (List.mem_filter.mp hd).2
    rw [hsend d, if_pos hmem, Chan.afterBroadcast_ready _ _ hr, Chan.put_closed]
    exact ho d hmem

theorem inv_writerRecv (s : ChatRoom) (c : ClientId) (hk : s.KeysUnique)
    (ho : s.MembersOpen) : (s.writerRecv c).KeysUnique ∧ (s.writerRecv c).MembersOpen := by
  constructor
  · exact hk
  · intro d hd
    show (Function.update s.send c (s.send c).recv d).closed = false
    by_cases hdc : d = c
    · subst hdc
      rw [Function.update_same, Chan.recv_closed]
      exact ho d hd
    · rw [Function.update_noteq hdc]
      exact ho d hd

theorem inv_exec : ∀ (as : List Action) (regs : List ClientId) (s s1 : ChatRoom),
    s.KeysUnique → s.MembersOpen → disciplined regs s as = true →
    s.exec as = .ok s1 → s1.KeysUnique ∧ s1.MembersOpen := by
  intro as
  induction as with
  | nil =>
    intro regs s s1 hk ho _ h
    simp only [exec, Except.ok.injEq] at h
    subst h
    exact ⟨hk, ho⟩
  | cons a as ih =>
    intro regs s s1 hk ho hd h
    cases a with
    | recv c =>
      simp only [disciplined, act] at hd
      simp only [exec, act] at h
      obtain ⟨hk1, ho1⟩ := inv_writerRecv s c hk ho
      exact ih regs _ s1 hk1 ho1 hd h
    | hub e =>
      cases e with
      | register c =>
        simp only [disciplined, Bool.and_eq_true, Bool.not_eq_true'] at hd
        simp only [exec, act, step] at h
        obtain ⟨hk1, ho1⟩ := inv_insertClient s c hk ho hd.1.2
        exact ih _ _ s1 hk1 ho1 hd.2 h
      | unregister c =>
        simp only [disciplined, act] at hd
        simp only [exec, act] at h
        cases hs : s.step (.unregister c) with
        | error f => simp [hs] at h
        | ok s2 =>
          simp only [hs] at hd h
          obtain ⟨hk1, ho1⟩ := inv_unregister s s2 c hk ho hs
          exact ih regs _ s1 hk1 ho1 hd h
      | broadcast m =>
        simp only [disciplined, act] at hd
        simp only [exec, act] at h
        cases hs : s.step (.broadcast m) with
        | error f => simp [hs] at h
        | ok s2 =>
          simp only [hs] at hd h
          obtain ⟨hk1, ho1⟩ := inv_broadcast s s2 m hk ho hs
          exact ih regs _ s1 hk1 ho1 hd h

end ChatRoom

/-- C10: in every hub state reached from the empty hub by register, unregister
and broadcast steps (and receives by the writer goroutines), each register
being of a client not registered before and with an open channel, every client
in the `clients` map has an open channel; hence a broadcast in such a state
completes without a send on a closed channel. -/
theorem reachable_members_open (send : ClientId → Chan) (as : List Action) (s : ChatRoom)
    (hd : ChatRoom.disciplined [] (newChatRoom send) as = true)
    (hr : (newChatRoom send).exec as = .ok s) :
    (∀ c ∈ s.clients, (s.send c).closed = false) ∧
    ∀ m, (∃ s1, s.step (.broadcast m) = .ok s1) ∧
      ∀ c ∈ s.clients, (s.send c).trySend m ≠ .error .sendOnClosed := by
  have hinv := ChatRoom.inv_exec as [] (newChatRoom send) s
    (by simp [ChatRoom.KeysUnique, newChatRoom])
    (by intro c hc; simp [newChatRoom] at hc) hd hr
  refine ⟨hinv.2, fun m => ⟨?_, ?_⟩⟩
  · obtain ⟨s1, hrun, _, _⟩ := ChatRoom.broadcast_spec m s hinv.1 hinv.2
    exact ⟨s1, hrun⟩
  · intro c hc
    rw [Chan.trySend_open _ _ (hinv.2 c hc)]
    simp

/-- Witness of C10: the trace `sampleTrace` from the empty hub. -/
theorem reachable_members_open_witness :
    ChatRoom.disciplined [] (newChatRoom freshSend) sampleTrace = true ∧
    (newChatRoom freshSend).exec sampleTrace = .ok sampleTraceEnd ∧
    (∀ c ∈ sampleTraceEnd.clients, (sampleTraceEnd.send c).closed = false) ∧
    ∀ m, (∃ s1, sampleTraceEnd.step (.broadcast m) = .ok s1) ∧
      ∀ c ∈ sampleTraceEnd.clients,
        (sampleTraceEnd.send c).trySend m ≠ .error .sendOnClosed :=
  ⟨by decide, rfl, reachable_members_open freshSend sampleTrace sampleTraceEnd (by decide) rfl⟩

/-! ## A member that never drains its queue -/

theorem Chan.stalled_ready (q : Nat) (ms : List Msg) :
    (Chan.stalled q ms).ready = decide (ms.length < q) := by
  simp [Chan.stalled, Chan.ready, List.length_take]

theorem Chan.stalled_afterBroadcast (q : Nat) (ms : List Msg) (m : Msg)
    (h : ms.length ≤ q) :
    (Chan.stalled q ms).afterBroadcast m = Chan.stalled q (ms ++ [m]) := by
  unfold Chan.afterBroadcast
  rw [Chan.stalled_ready]
  by_cases hlt : ms.length < q
  · have h1 : List.take q ms = ms := List.take_of_length_le h
    have h2 : List.take q (ms ++ [m]) = ms ++ [m] :=
      List.take_of_length_le (by simp; omega)
    have h3 : ¬ q < ms.length + 1 := by omega
    have h4 : ¬ q < ms.length := by omega
    simp [hlt, Chan.put, Chan.stalled, h1, h2, h3, h4]
  · have he : ms.length = q := by omega
    have h1 : List.take q ms = ms := List.take_of_length_le h
    have h2 : List.take q (ms ++ [m]) = ms := by
      rw [List.take_append_of_le_length (by omega)]
      exact h1
    simp [hlt, Chan.shut, Chan.stalled, h1, h2, he]

theorem Chan.stalled_snoc_of_lt (q : Nat) (ms : List Msg) (m : Msg)
    (h : q < ms.length) : Chan.stalled q (ms ++ [m]) = Chan.stalled q ms := by
  have h2 : List.take q (ms ++ [m]) = List.take q ms :=
    List.take_append_of_le_length (by omega)
  have h3 : q < ms.length + 1 := by omega
  simp [Chan.stalled, h2, h, h3]

namespace ChatRoom

theorem Sim.recv {c : ClientId} {q : Nat} {ms : List Msg} {s1 s0 : ChatRoom}
    (h : Sim c q ms s1 s0) (d : ClientId) (hd : d ≠ c) :
    Sim c q ms (s1.writerRecv d) (s0.writerRecv d) := by
  have hdc : c ≠ d := fun e => hd e.symm
  refine ⟨h.clients_eq, ?_, (inv_writerRecv s1 d h.keys1 h.open1).1,
    (inv_writerRecv s1 d h.keys1 h.open1).2, (inv_writerRecv s0 d h.keys0 h.open0).1,
    (inv_writerRecv s0 d h.keys0 h.open0).2, h.member, ?_⟩
  · intro e he
    show Function.update s1.send d (s1.send d).recv e
      = Function.update s0.send d (s0.send d).recv e
    by_cases hed : e = d
    · subst hed
      rw [Function.update_same, Function.update_same, h.send_eq e he]
    · rw [Function.update_noteq hed, Function.update_noteq hed, h.send_eq e he]
  · show Function.update s1.send d (s1.send d).recv c = _
    rw [Function.update_noteq hdc]
    exact h.chan

theorem Sim.broadcast {c : ClientId} {q : Nat} {ms : List Msg} {s1 s0 : ChatRoom}
    (h : Sim c q ms s1 s0) (m : Msg) :
    ∃ t1 t0, s1.step (.broadcast m) = .ok t1 ∧ s0.step (.broadcast m) = .ok t0 ∧
      Sim c q (ms ++ [m]) t1 t0 := by
  obtain ⟨t1, hrun1, hsend1, hcl1⟩ := broadcast_spec m s1 h.keys1 h.open1
  obtain ⟨t0, hrun0, hsend0, hcl0⟩ := broadcast_spec m s0 h.keys0 h.open0
  have hi1 := inv_broadcast s1 t1 m h.keys1 h.open1 hrun1
  have hi0 := inv_broadcast s0 t0 m h.keys0 h.open0 hrun0
  have hmem0 : ∀ d, d ≠ c → (d ∈ s0.clients ↔ d ∈ s1.clients) := by
    intro d hd
    rw [h.clients_eq, List.mem_filter]
    simp [hd]
  refine ⟨t1, t0, hrun1, hrun0, ?_, ?_, hi1.1, hi1.2, hi0.1, hi0.2, ?_, ?_⟩
  · rw [hcl0, hcl1, h.clients_eq, List.filter_filter, List.filter_filter]
    apply List.filter_congr
    intro d _
    by_cases hd : d = c
    · simp [hd]
    · simp [hd, h.send_eq d hd]
  · intro d hd
    rw [hsend1 d, hsend0 d, h.send_eq d hd]
    by_cases hm : d ∈ s1.clients
    · rw [if_pos hm, if_pos ((hmem0 d hd).mpr hm)]
    · rw [if_neg hm, if_neg (fun x => hm ((hmem0 d hd).mp x))]
  · rw [hcl1, List.mem_filter, h.member, h.chan, Chan.stalled_ready]
    simp
    omega
  · rw [hsend1 c]
    by_cases hm : c ∈ s1.clients
    · rw [if_pos hm, h.chan]
      exact Chan.stalled_afterBroadcast q ms m (h.member.mp hm)
    · rw [if_neg hm, h.chan]
      have hlt : q < ms.length := by
        by_contra hc
        exact hm (h.member.mpr (by omega))
      exact (Chan.stalled_snoc_of_lt q ms m hlt).symm

theorem Sim.exec {c : ClientId} {q : Nat} :
    ∀ (as : List Action) (ms : List Msg) (s1 s0 : ChatRoom), Sim c q ms s1 s0 →
      (∀ a ∈ as, a.quietFor c = true) →
      ∃ t1 t0, s1.exec as = .ok t1 ∧ s0.exec as = .ok t0 ∧
        Sim c q (ms ++ broadcastMsgs as) t1 t0 := by
  intro as
  induction as with
  | nil =>
    intro ms s1 s0 h _
    exact ⟨s1, s0, rfl, rfl, by simpa [broadcastMsgs] using h⟩
  | cons a as ih =>
    intro ms s1 s0 h hq
    have hqa := hq a (List.mem_cons_self _ _)
    have hqs : ∀ b ∈ as, b.quietFor c = true :=
      fun b hb => hq b (List.mem_cons_of_mem _ hb)
    cases a with
    | recv d =>
      have hd : d ≠ c := by simpa [Action.quietFor] using hqa
      obtain ⟨t1, t0, h1, h0, hs⟩ := ih ms _ _ (h.recv d hd) hqs
      refine ⟨t1, t0, ?_, ?_, ?_⟩
      · simpa [ChatRoom.exec, act] using h1
      · simpa [ChatRoom.exec, act] using h0
      · simpa [broadcastMsgs, Action.message] using hs
    | hub e =>
      cases e with
      | register d => simp [Action.quietFor] at hqa
      | unregister d => simp [Action.quietFor] at hqa
      | broadcast m =>
        obtain ⟨u1, u0, hu1, hu0, hsim⟩ := h.broadcast m
        obtain ⟨t1, t0, h1, h0, hs⟩ := ih (ms ++ [m]) u1 u0 hsim hqs
        refine ⟨t1, t0, ?_, ?_, ?_⟩
        · simp only [ChatRoom.exec, act, hu1]
          exact h1
        · simp only [ChatRoom.exec, act, hu0]
          exact h0
        · simpa [broadcastMsgs, Action.message] using hs

theorem Sim.init (s : ChatRoom) (c : ClientId) (q : Nat) (hk : s.KeysUnique)
    (ho : s.MembersOpen) (hc : c ∉ s.clients) (hch : s.send c = makeChan q) :
    Sim c q [] (s.insertClient c) s := by
  have hopen : (s.send c).closed = false := by rw [hch]; rfl
  have hi := inv_insertClient s c hk ho hopen
  have hcl : (s.insertClient c).clients = s.clients ++ [c] := by
    simp [insertClient, hc]
  refine ⟨?_, fun _ _ => rfl, hi.1, hi.2, hk, ho, ?_, ?_⟩
  · rw [hcl, List.filter_append]
    have h1 : s.clients.filter (fun d => decide (d ≠ c)) = s.clients := by
      apply List.filter_eq_self.mpr
      intro d hd
      have : d ≠ c := fun e => hc (e ▸ hd)
      simpa using this
    have h2 : [c].filter (fun d => decide (d ≠ c)) = [] := by simp
    rw [h1, h2, List.append_nil]
  · rw [hcl]
    simp
  · show s.send c = _
    rw [hch]
    simp [Chan.stalled, makeChan]

end ChatRoom

/-- C6: a client `c` that joins with an empty channel of capacity `q` and never
receives from it, while broadcasts and receives by the writers of the other
clients go on: the run completes; `c` is a member exactly as long as at most `q`
messages have been broadcast, and its channel holds the first `q` messages in
order and is closed once message number `q + 1` has been broadcast. For every
other client, channel and membership are those of the same run without `c`. The
channel that `handleWebSocket` builds is the instance `q = 0`. -/
theorem stalled_member_evicted (s : ChatRoom) (c : ClientId) (q : Nat) (as : List Action)
    (hk : s.KeysUnique) (ho : s.MembersOpen) (hc : c ∉ s.clients)
    (hch : s.send c = makeChan q) (hq : ∀ a ∈ as, a.quietFor c = true) :
    handleWebSocketSend = makeChan 0 ∧
    ∃ t1 t0, s.exec (.hub (.register c) :: as) = .ok t1 ∧ s.exec as = .ok t0 ∧
      (c ∈ t1.clients ↔ (broadcastMsgs as).length ≤ q) ∧
      t1.send c = { cap := q, buf := (broadcastMsgs as).take q, recvWaiting := false,
                    delivered := [], closed := decide (q < (broadcastMsgs as).length) } ∧
      (∀ d, d ≠ c → t1.send d = t0.send d ∧ (d ∈ t1.clients ↔ d ∈ t0.clients)) := by
  refine ⟨rfl, ?_⟩
  obtain ⟨t1, t0, h1, h0, hs⟩ :=
    ChatRoom.Sim.exec as [] _ _ (ChatRoom.Sim.init s c q hk ho hc hch) hq
  rw [List.nil_append] at hs
  refine ⟨t1, t0, ?_, h0, hs.member, hs.chan, ?_⟩
  · simpa [ChatRoom.exec, ChatRoom.act, ChatRoom.step] using h1
  · intro d hd
    refine ⟨hs.send_eq d hd, ?_⟩
    rw [hs.clients_eq, List.mem_filter]
    simp [hd]

/-- Witness of C6: capacity one, two broadcasts in succession. -/
theorem stalled_member_evicted_witness :
    stallRoom.KeysUnique ∧ stallRoom.MembersOpen ∧ (1 ∉ stallRoom.clients) ∧
    stallRoom.send 1 = makeChan 1 ∧
    handleWebSocketSend = makeChan 0 ∧
    ∃ t1 t0, stallRoom.exec (.hub (.register 1) :: stallTrace) = .ok t1 ∧
      stallRoom.exec stallTrace = .ok t0 ∧
      (1 ∈ t1.clients ↔ (broadcastMsgs stallTrace).length ≤ 1) ∧
      t1.send 1 = { cap := 1, buf := (broadcastMsgs stallTrace).take 1, recvWaiting := false,
                    delivered := [],
                    closed := decide (1 < (broadcastMsgs stallTrace).length) } ∧
      (∀ d, d ≠ 1 → t1.send d = t0.send d ∧ (d ∈ t1.clients ↔ d ∈ t0.clients)) :=
  ⟨by decide, by decide, by decide, by decide,
    stalled_member_evicted stallRoom 1 1 stallTrace (by decide) (by decide) (by decide)
      (by decide) (by decide)⟩

/-! ## Membership along joins and leaves, and the order of the `range` -/

namespace ChatRoom

/-- On a sequence of joins and leaves that the hub survives, the `clients` map
holds exactly the clients joined and not left afterwards. -/
theorem run_membership : ∀ (es : List Event) (s s1 : ChatRoom) (c : ClientId),
    (∀ e ∈ es, ∀ m, e ≠ Event.broadcast m) → s.run es = .ok s1 →
    (c ∈ s1.clients ↔ joinedNotLeft c (decide (c ∈ s.clients)) es = true) := by
  intro es
  induction es with
  | nil =>
    intro s s1 c _ h
    simp only [run, Except.ok.injEq] at h
    subst h
    simp [joinedNotLeft]
  | cons e es ih =>
    intro s s1 c hnb h
    have hnb2 : ∀ e2 ∈ es, ∀ m, e2 ≠ Event.broadcast m :=
      fun e2 he2 => hnb e2 (List.mem_cons_of_mem _ he2)
    cases e with
    | broadcast m => exact absurd rfl (hnb _ (List.mem_cons_self _ _) m)
    | register d =>
      simp only [run, step] at h
      rw [ih _ s1 c hnb2 h]
      have : decide (c ∈ (s.insertClient d).clients)
          = (decide (c ∈ s.clients) || decide (d = c)) := by
        unfold insertClient
        by_cases hd : d ∈ s.clients
        · by_cases hdc : d = c
          · subst hdc
            simp [hd]
          · simp [hd, hdc]
        · by_cases hdc : d = c
          · subst hdc
            simp [hd]
          · have hcd : ¬ c = d := fun e => hdc e.symm
            simp [hd, hdc, hcd]
      simp only [joinedNotLeft, this]
    | unregister d =>
      simp only [run] at h
      cases hs : s.step (.unregister d) with
      | error f => simp [hs] at h
      | ok s2 =>
        simp only [hs] at h
        rw [ih _ s1 c hnb2 h]
        have hcl : s2.clients = s.clients.filter (fun x => x ≠ d) := by
          unfold step at hs
          cases hc : ((s.deleteClient d).send d).close with
          | error f => simp [hc] at hs
          | ok ch =>
            simp only [hc, Except.ok.injEq] at hs
            subst hs
            rfl
        have : decide (c ∈ s2.clients)
            = (decide (c ∈ s.clients) && !decide (d = c)) := by
          rw [hcl]
          by_cases hdc : d = c
          · subst hdc
            simp
          · have hcd : ¬ c = d := fun e => hdc e.symm
            simp [hdc, hcd]
        simp only [joinedNotLeft, this]

/-- The order in which the `range` visits the map does not matter: two hub
states with the same channels and the same keys in different orders end a
broadcast with the same channels and the same keys. -/
theorem broadcast_order_irrelevant (s t : ChatRoom) (m : Msg)
    (hk : s.KeysUnique) (ho : s.MembersOpen) (hp : t.clients.Perm s.clients)
    (hsend : t.send = s.send) :
    ∃ s1 t1, s.step (.broadcast m) = .ok s1 ∧ t.step (.broadcast m) = .ok t1 ∧
      t1.send = s1.send ∧ t1.clients.Perm s1.clients := by
  have hkt : t.KeysUnique := (List.Perm.nodup_iff hp).mpr hk
  have hot : t.MembersOpen := by
    intro c hc
    rw [hsend]
    exact ho c ((List.Perm.mem_iff hp).mp hc)
  obtain ⟨s1, hr1, hs1, hc1⟩ := broadcast_spec m s hk ho
  obtain ⟨t1, hr2, hs2, hc2⟩ := broadcast_spec m t hkt hot
  refine ⟨s1, t1, hr1, hr2, ?_, ?_⟩
  · funext c
    rw [hs1 c, hs2 c, hsend]
    by_cases hc : c ∈ s.clients
    · rw [if_pos hc, if_pos ((List.Perm.mem_iff hp).mpr hc)]
    · rw [if_neg hc, if_neg (fun x => hc ((List.Perm.mem_iff hp).mp x))]
  · rw [hc1, hc2, hsend]
    exact List.Perm.filter _ hp

end ChatRoom

/-! ## Joins and leaves -/

namespace ChatRoom

theorem step_unregister_open (s : ChatRoom) (c : ClientId)
    (h : (s.send c).closed = false) :
    s.step (.unregister c) = .ok
      { clients := s.clients.filter (fun d => d ≠ c),
        send := Function.update s.send c (s.send c).shut } := by
  simp [step, deleteClient, setSend, Chan.close, Chan.shut, h]

/-- Two leaves of the same client in a row always end in the panic
"close of closed channel". -/
theorem run_unregister_twice (s : ChatRoom) (c : ClientId) :
    s.run [.unregister c, .unregister c] = .error .closeOfClosed := by
  by_cases h : (s.send c).closed = true
  · have h1 : s.step (.unregister c) = .error .closeOfClosed := by
      simp [ChatRoom.step, ChatRoom.deleteClient, Chan.close, h]
    simp [ChatRoom.run, h1]
  · have h0 : (s.send c).closed = false := by simpa using h
    simp [ChatRoom.run, ChatRoom.step, ChatRoom.deleteClient, ChatRoom.setSend,
      Chan.close, h0]

theorem keysUnique_insertClient (s : ChatRoom) (c : ClientId) (hk : s.KeysUnique) :
    (s.insertClient c).KeysUnique := by
  unfold insertClient KeysUnique
  by_cases hm : c ∈ s.clients
  · simp only [hm, if_true]
    exact hk
  · simp only [hm, if_false]
    exact List.Nodup.append hk (List.nodup_singleton c) (by simpa using hm)

/-- A sequence of joins and leaves in which no client is left twice, and in
which the clients left have open channels at the start, does not panic. -/
theorem run_join_leave : ∀ (es : List Event) (s : ChatRoom),
    (∀ e ∈ es, e.isJoinOrLeave = true) →
    (∀ c ∈ leaves es, (s.send c).closed = false) → (leaves es).Nodup →
    s.KeysUnique → ∃ s1, s.run es = .ok s1 ∧ s1.KeysUnique := by
  intro es
  induction es with
  | nil =>
    intro s _ _ _ hk
    exact ⟨s, rfl, hk⟩
  | cons e es ih =>
    intro s hjl hopen hnd hk
    have hjl2 : ∀ e2 ∈ es, e2.isJoinOrLeave = true :=
      fun e2 he2 => hjl e2 (List.mem_cons_of_mem _ he2)
    cases e with
    | broadcast m =>
      have := hjl _ (List.mem_cons_self _ _)
      simp [Event.isJoinOrLeave] at this
    | register d =>
      obtain ⟨s1, h1, hk1⟩ := ih (s.insertClient d) hjl2
        (fun c hc => hopen c (by simpa [leaves] using hc))
        (by simpa [leaves] using hnd) (keysUnique_insertClient s d hk)
      exact ⟨s1, by simpa [run, step] using h1, hk1⟩
    | unregister d =>
      have hnd2 : d ∉ leaves es ∧ (leaves es).Nodup := by
        simpa [leaves] using hnd
      have hd : (s.send d).closed = false := hopen d (by simp [leaves])
      have hstep := step_unregister_open s d hd
      obtain ⟨s1, h1, hk1⟩ := ih
        { clients := s.clients.filter (fun x => x ≠ d),
          send := Function.update s.send d (s.send d).shut } hjl2
        (by
          intro c hc
          have hcd : c ≠ d := fun e => hnd2.1 (e ▸ hc)
          show (Function.update s.send d (s.send d).shut c).closed = false
          rw [Function.update_noteq hcd]
          exact hopen c (by simp [leaves, hc]))
        hnd2.2 (List.Nodup.filter _ hk)
      refine ⟨s1, ?_, hk1⟩
      simp only [run, hstep]
      exact h1

end ChatRoom

/-- C2, as stated, fails: from the empty hub, the sequence join 1, leave 2,
leave 2 ends in the panic "close of closed channel" instead of leaving the map
as `[1]`; and the first leave of the absent client 2 is not without effect: it
closes the channel of client 2. -/
theorem leave_of_absent_closes_and_panics :
    (newChatRoom freshSend).run [.register 1, .unregister 2, .unregister 2]
      = .error .closeOfClosed ∧
    (∃ s1, (newChatRoom freshSend).run [.register 1, .unregister 2] = .ok s1 ∧
      s1.clients = [1] ∧ (freshSend 2).closed = false ∧ (s1.send 2).closed = true) := by
  constructor
  · rfl
  · exact ⟨_, rfl, rfl, rfl, rfl⟩

/-- C2, amended: for every finite sequence of joins and leaves in which no
client is left more than once and the clients left have open channels at the
start (every sequence the adapter produces is such: it sends one leave per
client), handled from the empty hub, the run completes and the `clients` map
holds, without duplicates, exactly the clients joined and not left afterwards.
Joining a client already present changes nothing at all, and leaving an absent
client whose channel is open leaves the map as it was. -/
theorem join_leave_membership (send : ClientId → Chan) (es : List Event)
    (hjl : ∀ e ∈ es, e.isJoinOrLeave = true)
    (hopen : ∀ c ∈ leaves es, (send c).closed = false)
    (hnd : (leaves es).Nodup) :
    (∃ s1, (newChatRoom send).run es = .ok s1 ∧ s1.clients.Nodup ∧
      ∀ c, (c ∈ s1.clients ↔ joinedNotLeft c false es = true)) ∧
    (∀ (s : ChatRoom) (c : ClientId), c ∈ s.clients → s.step (.register c) = .ok s) ∧
    (∀ (s : ChatRoom) (c : ClientId), c ∉ s.clients → (s.send c).closed = false →
      ∃ s1, s.step (.unregister c) = .ok s1 ∧ s1.clients = s.clients) := by
  refine ⟨?_, ?_, ?_⟩
  · obtain ⟨s1, h1, hk1⟩ := ChatRoom.run_join_leave es (newChatRoom send) hjl hopen hnd
      (by simp [ChatRoom.KeysUnique, newChatRoom])
    refine ⟨s1, h1, hk1, ?_⟩
    intro c
    have hnb : ∀ e ∈ es, ∀ m, e ≠ Event.broadcast m := by
      intro e he m hem
      have := hjl e he
      rw [hem] at this
      simp [Event.isJoinOrLeave] at this
    have := ChatRoom.run_membership es (newChatRoom send) s1 c hnb h1
    simpa [newChatRoom] using this
  · intro s c hc
    simp [ChatRoom.step, ChatRoom.insertClient, hc]
  · intro s c hc hcl
    refine ⟨_, ChatRoom.step_unregister_open s c hcl, ?_⟩
    apply List.filter_eq_self.mpr
    intro d hd
    have : d ≠ c := fun e => hc (e ▸ hd)
    simpa using this

/-- Witness of C2, amended: `joinLeaveTrace` from the empty hub with the
channels that `handleWebSocket` builds. -/
theorem join_leave_membership_witness :
    (∀ e ∈ joinLeaveTrace, e.isJoinOrLeave = true) ∧
    (∀ c ∈ leaves joinLeaveTrace, (freshSend c).closed = false) ∧
    (leaves joinLeaveTrace).Nodup ∧
    (∃ s1, (newChatRoom freshSend).run joinLeaveTrace = .ok s1 ∧ s1.clients.Nodup ∧
      ∀ c, (c ∈ s1.clients ↔ joinedNotLeft c false joinLeaveTrace = true)) ∧
    (∀ (s : ChatRoom) (c : ClientId), c ∈ s.clients → s.step (.register c) = .ok s) ∧
    (∀ (s : ChatRoom) (c : ClientId), c ∉ s.clients → (s.send c).closed = false →
      ∃ s1, s.step (.unregister c) = .ok s1 ∧ s1.clients = s.clients) :=
  ⟨by decide, by decide, by decide,
    join_leave_membership freshSend joinLeaveTrace (by decide) (by decide) (by decide)⟩

/-- C3, as stated, fails: for the hub whose only member is client 1, one leave
of client 1 completes and empties the map, while two leaves in a row end in the
panic "close of closed channel"; the two runs do not end in the same state. -/
theorem unregister_twice_differs :
    (∃ s1, soloRoom.run [.unregister 1] = .ok s1 ∧ s1.clients = []) ∧
    soloRoom.run [.unregister 1, .unregister 1] = .error .closeOfClosed ∧
    soloRoom.run [.unregister 1, .unregister 1] ≠ soloRoom.run [.unregister 1] := by
  refine ⟨⟨_, rfl, rfl⟩, rfl, ?_⟩
  intro h
  have h1 : soloRoom.run [.unregister 1, .unregister 1] = .error .closeOfClosed := rfl
  rw [h1] at h
  have h2 : ∃ s1, soloRoom.run [.unregister 1] = .ok s1 := ⟨_, rfl⟩
  obtain ⟨s1, h3⟩ := h2
  rw [h3] at h
  cases h

/-- C3, amended: for every hub state and every client `c` whose channel is
open, handling one leave of `c` completes: `c` is out of the map, its channel
is closed, and no other client is touched, in the map or in its channel. On
the map a further `delete` of `c` is a no-op. The adapter sends exactly one
leave per connection, that of its own client, so the hub is asked for one
leave per client. -/
theorem unregister_once (s : ChatRoom) (c : ClientId) (hopen : (s.send c).closed = false)
    (reads : List ReadResult) :
    (∃ s1, s.step (.unregister c) = .ok s1 ∧ c ∉ s1.clients ∧
      (∀ d, d ≠ c → (d ∈ s1.clients ↔ d ∈ s.clients)) ∧
      (s1.send c).closed = true ∧ (s1.send c).sent = (s.send c).sent ∧
      (∀ d, d ≠ c → s1.send d = s.send d) ∧
      (s1.deleteClient c).clients = s1.clients) ∧
    (hubEvents (handleWebSocket false c reads)).filter Event.isLeave = [.unregister c] := by
  constructor
  · refine ⟨_, ChatRoom.step_unregister_open s c hopen, ?_, ?_, ?_, ?_, ?_, ?_⟩
    · simp
    · intro d hd
      simp [hd]
    · simp [Chan.shut]
    · simp [Chan.shut, Chan.sent]
    · intro d hd
      simp [Function.update_noteq hd]
    · simp [ChatRoom.deleteClient, List.filter_filter]
  · have hnone : ∀ l : List ReadResult,
        (l.map (fun r => Event.broadcast r.p)).filter Event.isLeave = [] := by
      intro l
      apply List.filter_eq_nil_iff.mpr
      intro e he
      obtain ⟨r, _, hr⟩ := List.mem_map.mp he
      rw [← hr]
      simp [Event.isLeave]
    have hev : hubEvents (handleWebSocket false c reads)
        = Event.register c ::
            ((reads.takeWhile ReadResult.isText).map (fun r => Event.broadcast r.p)
              ++ [Event.unregister c]) := by
      unfold handleWebSocket
      simp [hubEvents_append, hubEvents, hubEvents_handleWebSocketLoop]
    rw [hev, List.filter_cons, List.filter_append, hnone]
    simp [Event.isLeave, List.filter]

/-- Witness of C3, amended: client 1 of `sampleRoom`, and a connection that
delivers one text frame and then fails. -/
theorem unregister_once_witness :
    (sampleRoom.send 1).closed = false ∧
    (∃ s1, sampleRoom.step (.unregister 1) = .ok s1 ∧ 1 ∉ s1.clients ∧
      (∀ d, d ≠ 1 → (d ∈ s1.clients ↔ d ∈ sampleRoom.clients)) ∧
      (s1.send 1).closed = true ∧ (s1.send 1).sent = (sampleRoom.send 1).sent ∧
      (∀ d, d ≠ 1 → s1.send d = sampleRoom.send d) ∧
      (s1.deleteClient 1).clients = s1.clients) ∧
    (hubEvents (handleWebSocket false 1
        [{ messageType := TextMessage, p := [104], err := false },
         { messageType := -1, p := [], err := true }])).filter Event.isLeave
      = [.unregister 1] :=
  ⟨by decide,
    unregister_once sampleRoom 1 (by decide)
      [{ messageType := TextMessage, p := [104], err := false },
       { messageType := -1, p := [], err := true }]⟩

/-! ## Eviction followed by the deferred leave -/

/-- C4: one connection as the adapter drives it. Client 1 is registered with the
fresh channel of `handleWebSocket` and its writer parks; it sends two text
frames and then its read fails. The first broadcast is handed to the parked
writer; at the second the writer has not come back to the channel, so the
broadcast evicts client 1 and closes its channel; the deferred `unregister`
then closes the channel again and the hub panics. -/
theorem evicted_then_unregistered_panics :
    hubEvents (handleWebSocket false 1
        [{ messageType := TextMessage, p := [104], err := false },
         { messageType := TextMessage, p := [105], err := false },
         { messageType := -1, p := [], err := true }])
      = [.register 1, .broadcast [104], .broadcast [105], .unregister 1] ∧
    ChatRoom.disciplined [] (newChatRoom freshSend)
      [.hub (.register 1), .recv 1, .hub (.broadcast [104]), .hub (.broadcast [105]),
        .hub (.unregister 1)] = true ∧
    (∃ s1, (newChatRoom freshSend).exec
      [.hub (.register 1), .recv 1, .hub (.broadcast [104]), .hub (.broadcast [105])] = .ok s1 ∧
      s1.clients = [] ∧ (s1.send 1).closed = true) ∧
    (newChatRoom freshSend).exec
      [.hub (.register 1), .recv 1, .hub (.broadcast [104]), .hub (.broadcast [105]),
        .hub (.unregister 1)] = .error .closeOfClosed := by
  refine ⟨by decide, by decide, ⟨_, rfl, rfl, rfl⟩, rfl⟩

end Websocket
